import Mathlib

/-!
Verification development for the `hip` HTTP client library.

Bytes are modelled as `Nat` values (each < 256 where it matters), byte
strings as `List Nat`.  Python's ordered `dict` is modelled as an ordered
association list with unique keys.  Fallible code returns `Except`/`Option`.
All definitions are translated from the repository sources
(`src/hip/models.py`, `src/hip/utils.py`, `src/hip/decoders.py`,
`src/hip/_async/sessions.py`, `src/hip/_async/http1.py`,
`src/hip/_backends/sync.py`); the few places where the repository contains
an unimplemented stub are modelled from the specification and marked as
such in their doc comments.
-/

namespace Hip

/-! ## Headers (`hip/models.py`, classes `MultiMapping` and `Headers`)

`MultiMapping._internal` is a Python dict mapping a normalized key to a
list of `(normalized_key, normalized_value)` pairs.  Header values may be
`None`, hence `Option String`.  Python dicts preserve insertion order and
append new keys at the end, which the association-list model mirrors. -/

/-- One bucket of `MultiMapping._internal`: the list of `(key, value)`
pairs stored under one normalized key. -/
abbrev HeaderBucket := List (String × Option String)

/-- The `MultiMapping._internal` dict: ordered, unique keys. -/
abbrev HeaderDict := List (String × HeaderBucket)

/-- `dict.get(key, None)`: first (only) bucket stored under `key`. -/
def dictFind (d : HeaderDict) (k : String) : Option HeaderBucket :=
  match d with
  | [] => none
  | (k0, es) :: rest => if k0 = k then some es else dictFind rest k

/-- `self._internal.setdefault(key, []).append(item)`: append `item` to the
bucket of `key`, creating the bucket at the end of the dict if absent. -/
def dictAppend (d : HeaderDict) (k : String) (item : String × Option String) :
    HeaderDict :=
  match d with
  | [] => [(k, [item])]
  | (k0, es) :: rest =>
      if k0 = k then (k0, es ++ [item]) :: rest else (k0, es) :: dictAppend rest k item

/-- `self._internal.pop(key, None)`: remove the bucket of `key`.  Python
dict keys are unique, so removing every matching bucket from the
association list models removing the single dict entry. -/
def dictRemove (d : HeaderDict) (k : String) : HeaderDict :=
  match d with
  | [] => []
  | (k0, es) :: rest =>
      if k0 = k then dictRemove rest k else (k0, es) :: dictRemove rest k

/-- `dict.setdefault(key, default)`: keep an existing bucket, otherwise
insert `default` at the end; returns the resulting dict and the bucket. -/
def dictSetdefault (d : HeaderDict) (k : String) (default : HeaderBucket) :
    HeaderDict × HeaderBucket :=
  match d with
  | [] => ([(k, default)], default)
  | (k0, es) :: rest =>
      if k0 = k then ((k0, es) :: rest, es)
      else
        let (rest2, b) := dictSetdefault rest k default
        ((k0, es) :: rest2, b)

/-- `Headers`: a `MultiMapping` whose keys are normalized by lowercasing
(`Headers._normalize_key`). -/
structure Headers where
  internal : HeaderDict
deriving DecidableEq, Repr

/-- `Headers._normalize_key`: decode bytes and lowercase.  The model works
on `String` directly, so only the lowercasing remains; it is written as a
character map (`str.lower` restricted to ASCII, which covers every header
name the library uses). -/
def normKey (k : String) : String := ⟨k.data.map Char.toLower⟩

/-- `MultiMapping.add` specialized to `Headers`: both the dict key and the
stored pair use the normalized key. -/
def Headers.add (h : Headers) (k : String) (v : Option String) : Headers :=
  ⟨dictAppend h.internal (normKey k) (normKey k, v)⟩

/-- `MultiMapping.get_all`: all values stored under the key, `[]` if absent. -/
def Headers.get_all (h : Headers) (k : String) : List (Option String) :=
  match dictFind h.internal (normKey k) with
  | some es => es.map Prod.snd
  | none => []

/-- `MultiMapping.get_one`: the first value under the key; on `KeyError` or
`IndexError` the `default` argument. -/
def Headers.get_one (h : Headers) (k : String) (default : Option String) :
    Option String :=
  match dictFind h.internal (normKey k) with
  | some ((_, v) :: _) => v
  | _ => default

/-- `MultiMapping.pop_all`: remove the key's bucket entirely. -/
def Headers.pop_all (h : Headers) (k : String) : Headers :=
  ⟨dictRemove h.internal (normKey k)⟩

/-- `MultiMapping.setdefault` specialized to `Headers`; the source stores
the un-normalized key inside the default pair. -/
def Headers.setdefault (h : Headers) (k : String) (v : Option String) : Headers :=
  ⟨(dictSetdefault h.internal (normKey k) [(k, v)]).1⟩

/-- `MultiMapping.__contains__`: `bool(self._internal.get(key, None))` —
true iff the bucket exists and is non-empty. -/
def Headers.contains (h : Headers) (k : String) : Bool :=
  match dictFind h.internal (normKey k) with
  | some es => !es.isEmpty
  | none => false

/-- Build a `Headers` from a list of pairs (`MultiMapping.__init__` via
`extend`, which `add`s every pair in order). -/
def Headers.ofList (l : List (String × Option String)) : Headers :=
  l.foldl (fun h kv => h.add kv.1 kv.2) ⟨[]⟩

/-- `Headers.get_folded`: refuse to fold `Set-Cookie`; otherwise join the
non-`None` values with `"; "`. -/
def Headers.get_folded (h : Headers) (k : String) : Except String String :=
  if normKey k = "set-cookie" then
    .error "'Set-Cookie' header cannot be folded. Breaks semantics."
  else
    .ok (String.intercalate "; " ((h.get_all k).filterMap id))

/-! ## Response metadata (`hip/models.py`, class `Response`) -/

/-- `REDIRECT_STATUSES` from `hip/models.py`. -/
def REDIRECT_STATUSES : List Nat := [301, 302, 303, 307, 308]

/-- The header-level part of `hip.models.Response` (status code, HTTP
version, headers); the body machinery is not needed for these claims. -/
structure BaseResponse where
  status_code : Nat
  http_version : String
  headers : Headers
deriving DecidableEq, Repr

/-- `Response.is_redirect`:
`self.status_code in REDIRECT_STATUSES and "Location" in self.headers`. -/
def BaseResponse.is_redirect (r : BaseResponse) : Bool :=
  decide (r.status_code ∈ REDIRECT_STATUSES) && r.headers.contains "Location"

/-! ## URL percent-encoding table (`hip/utils.py`, `_int_to_urlenc`) -/

/-- One upper-case hex digit (value of `hex(n)[...]` after `.upper()`),
as a byte. -/
def hexDigitUpper (n : Nat) : Nat :=
  if n < 10 then 0x30 + n else 0x41 + (n - 10)

/-- Python `hex(b)[2:].upper().encode()` for `b < 256`: one digit when
`b < 16`, two digits otherwise — note there is no zero padding. -/
def hexUpperNoPad (b : Nat) : List Nat :=
  if b < 16 then [hexDigitUpper b]
  else [hexDigitUpper (b / 16), hexDigitUpper (b % 16)]

/-- `_int_to_urlenc` from `hip/utils.py`, as the function underlying the
`INT_TO_URLENC` table: the encoding of one byte. -/
def int_to_urlenc (byte : Nat) : List Nat :=
  if (0x61 ≤ byte ∧ byte ≤ 0x7A)
      ∨ (0x30 ≤ byte ∧ byte ≤ 0x5A ∧ byte ≠ 0x40)
      ∨ byte ∈ [0x2A, 0x2D, 0x2E, 0x5F] then
    [byte]
  else if byte = 0x20 then
    [0x2B]
  else
    0x25 :: hexUpperNoPad byte

/-! ## BytesChunker (`hip/utils.py`) -/

/-- The `while len(buffer) >= chunk_size` loop of `BytesChunker.feed`,
written with explicit fuel so that it is structurally recursive (each
iteration consumes `n ≥ 1` bytes, so `buf.length` units of fuel always
suffice): returns the emitted chunks and the remaining buffer. -/
def splitChunksFuel : Nat → Nat → List Nat → List (List Nat) × List Nat
  | 0, _, buf => ([], buf)
  | fuel + 1, n, buf =>
      if 0 < n ∧ n ≤ buf.length then
        let rest := splitChunksFuel fuel n (buf.drop n)
        (buf.take n :: rest.1, rest.2)
      else
        ([], buf)

/-- The `while` loop of `BytesChunker.feed` at adequate fuel.  For `n = 0`
the source loops forever; the model returns no chunks there (out of scope:
the claims only concern `n > 0`). -/
def splitChunks (n : Nat) (buf : List Nat) : List (List Nat) × List Nat :=
  splitChunksFuel buf.length n buf

/-- `BytesChunker` state: configured chunk size and pending buffer. -/
structure BytesChunker where
  chunk_size : Option Nat
  byte_buffer : List Nat
deriving DecidableEq, Repr

/-- `BytesChunker.__init__`. -/
def BytesChunker.init (chunk_size : Option Nat) : BytesChunker :=
  ⟨chunk_size, []⟩

/-- `BytesChunker.feed`: with no chunk size, pass the data through; with a
chunk size, append to the buffer and emit full chunks. -/
def BytesChunker.feed (c : BytesChunker) (data : List Nat) :
    List (List Nat) × BytesChunker :=
  match c.chunk_size with
  | none => ([data], c)
  | some n =>
      let r := splitChunks n (c.byte_buffer ++ data)
      (r.1, ⟨some n, r.2⟩)

/-- `BytesChunker.flush`: nothing with no chunk size, otherwise one chunk
holding the remaining buffer. -/
def BytesChunker.flush (c : BytesChunker) : List (List Nat) :=
  match c.chunk_size with
  | none => []
  | some _ => [c.byte_buffer]

/-- Feed a sequence of inputs through a `BytesChunker` in order, collecting
all emitted chunks and the final state. -/
def BytesChunker.feedAll (c : BytesChunker) (inputs : List (List Nat)) :
    List (List Nat) × BytesChunker :=
  match inputs with
  | [] => ([], c)
  | d :: rest =>
      let r1 := c.feed d
      let r2 := r1.2.feedAll rest
      (r1.1 ++ r2.1, r2.2)

/-! ## Certificate fingerprint pinning (`hip/models.py`,
`verify_peercert_fingerprint`)

The hash functions themselves (`hashlib.md5/sha1/sha256`) are external
collaborators; the embedding is parameterized over them.
`hmac.compare_digest` is constant-time equality; its functional behaviour
(equality of byte strings) is what the model captures — the timing aspect
is outside a shallow embedding. -/

/-- Value of one hex digit character, `none` if not a hex digit. -/
def hexCharVal (c : Char) : Option Nat :=
  if '0' ≤ c ∧ c ≤ '9' then some (c.toNat - 48)
  else if 'a' ≤ c ∧ c ≤ 'f' then some (c.toNat - 87)
  else if 'A' ≤ c ∧ c ≤ 'F' then some (c.toNat - 55)
  else none

/-- `binascii.unhexlify`: pairs of hex digits to bytes; `binascii.Error`
(here `none`) on odd length or a non-hex character. -/
def unhexlify : List Char → Option (List Nat)
  | [] => some []
  | [_] => none
  | c1 :: c2 :: rest =>
      match hexCharVal c1, hexCharVal c2, unhexlify rest with
      | some hi, some lo, some bs => some ((16 * hi + lo) :: bs)
      | _, _, _ => none

/-- `host_fingerprint.replace(":", "")` on the character list. -/
def stripColons (s : String) : List Char := s.data.filter (fun c => c ≠ ':')

/-- Outcome of `verify_peercert_fingerprint`: normal return, the
`CertificateFingerprintMismatch` exception (carrying both fingerprints),
or the `ValueError`/`binascii.Error` configuration errors. -/
inductive VerifyFingerResult
  | ok
  | fingerprintMismatch (actual expected : List Nat)
  | valueError
deriving DecidableEq, Repr

/-- The `algos` dict of `verify_peercert_fingerprint`, keyed by the binary
fingerprint length. -/
def algos (md5 sha1 sha256 : List Nat → List Nat) (len : Nat) :
    Option (List Nat → List Nat) :=
  if len = 16 then some md5
  else if len = 20 then some sha1
  else if len = 32 then some sha256
  else none

/-- `verify_peercert_fingerprint(peercert, pinned_cert)` from
`hip/models.py`, parameterized over the three hash functions. -/
def verify_peercert_fingerprint (md5 sha1 sha256 : List Nat → List Nat)
    (peercert : List Nat) (pinned_cert : String × String) : VerifyFingerResult :=
  match unhexlify (stripColons pinned_cert.2) with
  | none => .valueError
  | some expected =>
      match algos md5 sha1 sha256 expected.length with
      | none => .valueError
      | some algo =>
          let actual := algo peercert
          if expected = actual then .ok
          else .fingerprintMismatch actual expected

/-! ## Retry delays (`hip/models.py`, class `Retry`)

Python floats are idealized as rationals.  `secrets.randbelow` supplies
the random jitter draw; it is passed in as the explicit argument `rand`
(the source would in fact raise `TypeError` for a non-integer
`backoff_jitter`, since `randbelow` only accepts ints; the model keeps the
draw abstract). -/

/-- The retry-policy fields that the delay computation reads
(`Retry.__init__`); `none` models Python `None`. -/
structure Retry where
  max_retry_after : Option ℚ
  backoff_factor : ℚ
  backoff_jitter : ℚ
  max_backoff : Option ℚ
  backoff_counter : ℤ
deriving DecidableEq, Repr

/-- The jitter factor of `Retry._delay_backoff`:
`(1.0 - backoff_jitter) + randbelow(backoff_jitter)` when jitter is
positive, else `1.0`. -/
def Retry.jitterFactor (r : Retry) (rand : ℚ) : ℚ :=
  if 0 < r.backoff_jitter then (1 - r.backoff_jitter) + rand else 1

/-- `Retry._delay_backoff`: `none_is_inf(max_backoff)` means a `none`
bound never triggers the `<= 0` early return and never caps the `min`. -/
def Retry.delay_backoff (r : Retry) (rand : ℚ) : ℚ :=
  match r.max_backoff with
  | some mb =>
      if mb ≤ 0 then 0
      else
        min mb (r.backoff_factor * (2 : ℚ) ^ (r.backoff_counter - 1) *
          r.jitterFactor rand)
  | none =>
      r.backoff_factor * (2 : ℚ) ^ (r.backoff_counter - 1) * r.jitterFactor rand

/-- Digit run to a natural number. -/
def digitsVal (l : List Char) : Nat :=
  l.foldl (fun acc c => acc * 10 + (c.toNat - 48)) 0

/-- Negate when the sign character was `-`. -/
def applySign (neg : Bool) (q : ℚ) : ℚ := if neg then -q else q

/-- Python `float(s)` restricted to plain decimal literals
(`[+-]digits[.digits]`); every string this model accepts is accepted by
Python with the same value, and the strings the relevant claims evaluate
it on (plain integers, alphabetic HTTP-dates) behave identically. -/
def parseDecimal (s : String) : Option ℚ :=
  let signAndRest : Bool × List Char :=
    match s.data with
    | '-' :: rest => (true, rest)
    | '+' :: rest => (false, rest)
    | cs => (false, cs)
  let intPart := signAndRest.2.takeWhile Char.isDigit
  let rest := signAndRest.2.dropWhile Char.isDigit
  match rest with
  | [] =>
      if intPart.isEmpty then none
      else some (applySign signAndRest.1 ((digitsVal intPart : Nat) : ℚ))
  | '.' :: frac =>
      if frac.all Char.isDigit ∧ ¬(intPart.isEmpty ∧ frac.isEmpty) then
        some (applySign signAndRest.1
          (((digitsVal intPart : Nat) : ℚ) +
            ((digitsVal frac : Nat) : ℚ) / (10 : ℚ) ^ frac.length))
      else none
  | _ => none

/-- `Retry._delay_retry_after`:
`float(response.headers.get("Retry-After", "0") or 0)`.  A missing header
gives the default `"0"`; a stored `None` or empty value is falsy and gives
`float(0)`; anything else goes through `float`, which raises `ValueError`
(`.error ()`) when unparseable. -/
def Retry.delay_retry_after (resp : BaseResponse) : Except Unit ℚ :=
  match resp.headers.get_one "Retry-After" (some "0") with
  | none => .ok 0
  | some s =>
      if s = "" then .ok 0
      else
        match parseDecimal s with
        | some q => .ok q
        | none => .error ()

/-- `Retry.delay_before_next_request`: the backoff delay, maxed with the
`Retry-After` delay when a response is given. -/
def Retry.delay_before_next_request (r : Retry) (rand : ℚ)
    (resp : Option BaseResponse) : Except Unit ℚ :=
  match resp with
  | none => .ok (r.delay_backoff rand)
  | some resp => (Retry.delay_retry_after resp).map (max (r.delay_backoff rand))

/-! ## URLs, requests and redirect preparation
(`hip/models.py` `URL`/`Origin`/`Request`, `hip/_async/sessions.py`
`Session.prepare_request`/`Session.prepare_redirect`) -/

/-- `Origin` named tuple: `(scheme, host, effective_port)`. -/
structure Origin where
  scheme : String
  host : String
  port : Nat
deriving DecidableEq, Repr

/-- The fields of `hip.models.URL` that origin computation and redirect
preparation read (path, params, userinfo and fragment are not consulted
by the claims in scope). -/
structure URL where
  scheme : Option String
  host : Option String
  port : Option Nat
deriving DecidableEq, Repr

/-- `URL.DEFAULT_PORT_BY_SCHEME`. -/
def DEFAULT_PORT_BY_SCHEME (scheme : String) : Option Nat :=
  if scheme = "http" then some 80
  else if scheme = "https" then some 443
  else none

/-- `URL.origin`: raises `HTTPError` for non-absolute URLs or unknown
schemes, otherwise `(scheme, host, port-or-default)`. -/
def URL.origin (u : URL) : Except String Origin :=
  match u.scheme, u.host with
  | some scheme, some host =>
      match u.port with
      | some p => .ok ⟨scheme, host, p⟩
      | none =>
          match DEFAULT_PORT_BY_SCHEME scheme with
          | some p => .ok ⟨scheme, host, p⟩
          | none => .error "Unknown default port for scheme"
  | _, _ => .error "Origin cannot be determined for non-absolute URLs"

/-- `hip.models.Request`: method, URL and headers (the body lives in
`RequestData`, not on the request). -/
structure Request where
  method : String
  url : URL
  headers : Headers
deriving DecidableEq, Repr

/-- `hip.utils.user_agent()`, a fixed string per installation. -/
def userAgentValue : String := "python-hip/dev"

/-- `hip.decoders.accept_encoding()` with neither brotli nor zstd
installed. -/
def acceptEncodingValue : String := "gzip, deflate"

/-- `Session.prepare_request` restricted to how `prepare_redirect` calls
it (`auth = cookies = params = None`): the host header is computed from
the URL (appending `:port` only when a port is set and differs from the
scheme default), then `accept`, `user-agent`, `accept-encoding` and
`connection` defaults are applied.

Modelled from the spec: the source's header merge
(`prepare_headers`) re-merges `request.headers` with the same `headers`
object; per the spec's merge semantics this self-merge leaves the headers
unchanged (the source as written also relies on iterating a
`MultiMapping`, which defines no `__iter__`), so the model keeps the
headers as passed. -/
def prepare_request (method : String) (url : URL) (headers : Headers) :
    Request :=
  let headers :=
    if headers.contains "host" then headers
    else
      let request_host := (url.host).getD ""
      let request_host :=
        match url.port with
        | some p =>
            if DEFAULT_PORT_BY_SCHEME ((url.scheme).getD "") = some p then
              request_host
            else request_host ++ ":" ++ toString p
        | none => request_host
      headers.setdefault "host" (some request_host)
  let headers := headers.setdefault "accept" (some "*/*")
  let headers := headers.setdefault "user-agent" (some userAgentValue)
  let headers := headers.setdefault "accept-encoding" (some acceptEncodingValue)
  let headers := headers.setdefault "connection" (some "keep-alive")
  ⟨method, url, headers⟩

/-- The first half of `Session.prepare_redirect`: copy the headers, drop
`Host` and `Cookie`, build the request for the resolved URL, and apply
the browser-style `POST → GET` rewrite for 301–303.

Modelled from the spec in one respect: the redirected URL is
`request.url.join(response.headers["location"])`, but `URL.join` is an
unimplemented stub in the source (`def join(self, url): ...`), so the
RFC 3986-resolved URL is supplied as the explicit argument `newUrl`. -/
def redirectNewRequest (request : Request) (resp : BaseResponse)
    (newUrl : URL) : Request :=
  let headers := request.headers
  let headers := headers.pop_all "host"
  let headers := headers.pop_all "cookie"
  let new_request := prepare_request request.method newUrl headers
  if 301 ≤ resp.status_code ∧ resp.status_code ≤ 303 ∧
      request.method = "POST" then
    { new_request with method := "GET" }
  else new_request

/-- The second half of `Session.prepare_redirect(request, response)`: the
`Authorization` drop on origin change except for `http → https` upgrades
keeping the port (or 80 → 443); `URL.origin` raising propagates as the
error case. -/
def prepare_redirect (request : Request) (resp : BaseResponse) (newUrl : URL) :
    Except String Request :=
  let new_request := redirectNewRequest request resp newUrl
  match request.url.origin with
  | .error e => .error e
  | .ok o =>
      match new_request.url.origin with
      | .error e => .error e
      | .ok n =>
          if o ≠ n then
            if ¬(o.scheme = "http" ∧ n.scheme = "https" ∧
                (n.port = o.port ∨ (n.port = 443 ∧ o.port = 80))) then
              .ok { new_request with
                headers := new_request.headers.pop_all "authorization" }
            else .ok new_request
          else .ok new_request

/-! ## The 100-continue gate in the HTTP/1.1 transaction
(`hip/_async/http1.py`, `HTTP11Transaction.send_request`, together with
the pump `send_and_receive_for_a_while` from `hip/_backends/sync.py`)

`send_request` serializes the request head, then enters the pump with the
`produce_bytes`/`consume_bytes` closures.  The sans-I/O h11 parser is an
external collaborator: the model works at its event level — each chunk the
socket delivers is represented by the list of h11 events it parses into
(during this phase h11 emits `InformationalResponse` and `Response`
events), and the bytes `h11.send(Data(...))` produces for a body chunk
are represented by the chunk itself.  The peer and the readiness of the
socket are inputs: a finite schedule of "receive ready" bits drives the
pump loop (a run that exhausts the schedule models a read timeout). -/

/-- The inbound h11 events `consume_bytes` can see before the final
response: 1XX informational responses and the final response. -/
inductive H11Event
  | informationalResponse (status : Nat)
  | responseEvent (status : Nat)
deriving DecidableEq, Repr

/-- The closure state of `send_request`: the `expect_100` gate, the
informational-response history, and the final response (its status). -/
structure ConsumeState where
  expect100 : Bool
  history : List Nat
  response : Option Nat
deriving DecidableEq, Repr

/-- `consume_bytes`' event-drain loop: a 100 informational clears the
gate while it is pending, every informational is appended to the history,
and the first `Response` event records the response and raises
`AbortSendAndReceive` (the rest of the chunk is left unprocessed).
Returns the new state and whether the abort was raised. -/
def consumeEvents : ConsumeState → List H11Event → ConsumeState × Bool
  | cs, [] => (cs, false)
  | cs, .informationalResponse status :: rest =>
      let cs2 : ConsumeState :=
        { cs with
          expect100 := if cs.expect100 && decide (status = 100) then false
            else cs.expect100,
          history := cs.history ++ [status] }
      consumeEvents cs2 rest
  | cs, .responseEvent status :: _ =>
      ({ cs with response := some status }, true)

/-- What one call of `produce_bytes` does. -/
inductive ProduceResult
  | blocked
  | produced (chunk : List Nat)
  | exhausted
deriving DecidableEq, Repr

/-- `produce_bytes`: while the gate is set raise `BlockedUntilNextRead`;
otherwise pull the next body chunk, or return `None` when the iterator is
exhausted. -/
def produceBytes (expect100 : Bool) (body : List (List Nat)) :
    ProduceResult × List (List Nat) :=
  if expect100 then (.blocked, body)
  else
    match body with
    | [] => (.exhausted, [])
    | c :: rest => (.produced c, rest)

/-- `expect_100 = request.headers.get("expect", "") == "100-continue"`. -/
def expectGate (request : Request) : Bool :=
  match request.headers.get_one "expect" (some "") with
  | some s => s = "100-continue"
  | none => false

/-- What happened on the socket, in order: request-body bytes sent, or
one received chunk (as its parsed events) handed to `consume_bytes`. -/
inductive TraceEvent
  | sent (chunk : List Nat)
  | received (events : List H11Event)
deriving DecidableEq, Repr

/-- The pump state of `send_and_receive_for_a_while` combined with the
closure state: `outgoing` is the pending outbound buffer (`none` models
the empty buffer; the source asserts produced chunks are non-empty),
`body` the remaining request-body chunks, `inbound` what the peer will
deliver next. -/
structure PumpState where
  cs : ConsumeState
  body : List (List Nat)
  inbound : List (List H11Event)
  outgoing : Option (List Nat)
  outgoingFinished : Bool
  waitingForRead : Bool
  trace : List TraceEvent
deriving DecidableEq, Repr

/-- The send half of one pump turn: send the pending buffer if there is
one, sending is not finished, and `produce` is not blocked waiting for a
read.  Partial sends only split chunks, so the model sends whole
buffers. -/
def sendPhase (st : PumpState) : PumpState × Bool :=
  match st.outgoing with
  | some b =>
      if ¬st.outgoingFinished ∧ ¬st.waitingForRead then
        ({ st with outgoing := none, trace := st.trace ++ [.sent b] }, false)
      else (st, false)
  | none => (st, false)

/-- The produce half of one pump turn: call `produce_bytes` when there is
nothing pending, sending is not finished, and we are not blocked —
`BlockedUntilNextRead` sets `waiting_for_read`, `None` marks the outgoing
side finished, a chunk becomes the pending buffer. -/
def producePhase (st : PumpState) : PumpState :=
  if ¬st.outgoingFinished ∧ st.outgoing = none ∧ ¬st.waitingForRead then
    if st.cs.expect100 then { st with waitingForRead := true }
    else
      match st.body with
      | [] => { st with outgoingFinished := true, waitingForRead := false }
      | c :: rest =>
          { st with
            outgoing := some c
            body := rest
            waitingForRead := false }
  else st

/-- One iteration of the pump's `while True` loop: the produce phase,
then receive before send — a delivered chunk resets `waiting_for_read`
and is consumed (an `AbortSendAndReceive` from `consume_bytes` exits the
pump, returning `true`) — then the send phase.  `recvReady` says whether
the socket had inbound bytes this turn. -/
def pumpStep (recvReady : Bool) (st : PumpState) : PumpState × Bool :=
  let st := producePhase st
  match recvReady, st.inbound with
  | true, evs :: restIn =>
      let r := consumeEvents st.cs evs
      let st2 : PumpState :=
        { st with
          cs := r.1
          inbound := restIn
          waitingForRead := false
          trace := st.trace ++ [.received evs] }
      if r.2 then (st2, true) else sendPhase st2
  | _, _ => sendPhase st

/-- Run the pump over a finite readiness schedule, stopping on
`AbortSendAndReceive`; an exhausted schedule is a read timeout. -/
def runPump : List Bool → PumpState → PumpState × Bool
  | [], st => (st, false)
  | ready :: sched, st =>
      let r := pumpStep ready st
      if r.2 then (r.1, true) else runPump sched r.1

/-- The pump state `send_request` starts from. -/
def initPump (expect100 : Bool) (body : List (List Nat))
    (inbound : List (List H11Event)) : PumpState :=
  { cs := ⟨expect100, [], none⟩, body := body, inbound := inbound,
    outgoing := none, outgoingFinished := false, waitingForRead := false,
    trace := [] }

/-- An event that satisfies the claim's "a 100 informational response or
any other (final) response". -/
def eventClearsOrEnds : H11Event → Bool
  | .informationalResponse s => decide (s = 100)
  | .responseEvent _ => true

/-- A received chunk containing a 100 informational or the final
response. -/
def chunkHasResponse100 (evs : List H11Event) : Bool :=
  evs.any eventClearsOrEnds

/-- The claim's temporal property over a socket trace: scanning in order,
no request-body bytes are sent before a chunk containing a 100
informational or the final response has been received. -/
def noDataBeforeResponse : List TraceEvent → Bool
  | [] => true
  | .sent _ :: _ => false
  | .received evs :: rest =>
      chunkHasResponse100 evs || noDataBeforeResponse rest

/-- Whether the scanned trace has already delivered a chunk containing a
100 informational or the final response. -/
def traceCleared : List TraceEvent → Bool
  | [] => false
  | .sent _ :: rest => traceCleared rest
  | .received evs :: rest => chunkHasResponse100 evs || traceCleared rest

/-! ## The session redirect loop (`hip/_async/sessions.py`,
`Session.request`, lines 157–253)

The loop is driven by the network: each iteration sends the current
request and receives a response.  The model supplies that interaction as
a finite list of steps, one per iteration — the response the transaction
returned together with the resolved redirect target
`request.url.join(response.headers["location"])` (`URL.join` is an
unimplemented stub in the source, so the resolved URL is an oracle input,
as in `prepare_redirect`). -/

/-- The `redirects` argument: Python `None`, a `bool`, or an `int`. -/
inductive Redirects
  | noneV
  | boolV (b : Bool)
  | intV (n : Int)
deriving DecidableEq, Repr

/-- `redirects is not False`. -/
def Redirects.isNotFalse : Redirects → Bool
  | .boolV false => false
  | _ => true

/-- `isinstance(redirects, int)` — Python `bool` is a subclass of `int`. -/
def Redirects.isInstanceInt : Redirects → Bool
  | .intV _ => true
  | .boolV _ => true
  | .noneV => false

/-- The integer value `redirects` carries where the source compares and
decrements it (`True == 1`, `False == 0`). -/
def Redirects.intVal : Redirects → Int
  | .intV n => n
  | .boolV true => 1
  | .boolV false => 0
  | .noneV => 0

/-- How one call of `Session.request` ends, as far as the redirect logic
is concerned.  `outOfResponses` is a model artifact: the finite step list
ran out while the loop wanted another network exchange. -/
inductive SessionOutcome
  | done (resp : BaseResponse)
  | tooManyRedirects
  | redirectLoopDetected
  | httpError (e : String)
  | outOfResponses
deriving DecidableEq, Repr

/-- The `while True` loop of `Session.request`: on a redirect response
(with redirects enabled) check the budget (`TooManyRedirects` when an
int budget is 0, else decrement), build the redirect request, raise
`RedirectLoopDetected` when its URL was already visited, else record it
and continue; on a non-redirect response return it.

Modelled from the spec: membership in `visited_urls` compares URLs by
value, per the spec's redirect-loop invariant (the `URL` class in the
source defines no `__eq__`/`__hash__` yet, as it predates the loop's
tests). -/
def sessionLoop : Redirects → Request → List URL →
    List (BaseResponse × URL) → SessionOutcome
  | _, _, _, [] => .outOfResponses
  | redirects, request, visited, (resp, newUrl) :: rest =>
      if redirects.isNotFalse ∧ resp.is_redirect then
        if redirects.isInstanceInt ∧ redirects.intVal = 0 then
          .tooManyRedirects
        else
          let redirects' :=
            if redirects.isInstanceInt then Redirects.intV (redirects.intVal - 1)
            else redirects
          match prepare_redirect request resp newUrl with
          | .error e => .httpError e
          | .ok redirect_request =>
              if redirect_request.url ∈ visited then .redirectLoopDetected
              else
                sessionLoop redirects' redirect_request
                  (redirect_request.url :: visited) rest
      else .done resp

/-- `Session.request`'s redirect handling: the loop with `visited_urls`
seeded with the initial request URL. -/
def sessionRequest (redirects : Redirects) (request : Request)
    (steps : List (BaseResponse × URL)) : SessionOutcome :=
  sessionLoop redirects request [request.url] steps

/-- Every step's response is a redirect. -/
def allRedirects (steps : List (BaseResponse × URL)) : Prop :=
  ∀ p ∈ steps, p.1.is_redirect = true

instance (steps : List (BaseResponse × URL)) : Decidable (allRedirects steps) := by
  unfold allRedirects; exact inferInstance

/-- Every step's target URL has a well-defined origin (so
`prepare_redirect` does not raise `HTTPError`). -/
def allOriginsOk (steps : List (BaseResponse × URL)) : Prop :=
  ∀ p ∈ steps, (p.2.origin).isOk = true

instance (steps : List (BaseResponse × URL)) : Decidable (allOriginsOk steps) := by
  unfold allOriginsOk; exact inferInstance

/-- The target list revisits a URL: some target already occurs among the
`seen` URLs or among the earlier targets. -/
def hasRepeat (seen : List URL) (targets : List URL) : Prop :=
  ∃ i, ∃ hi : i < targets.length,
    targets.get ⟨i, hi⟩ ∈ seen ∨ targets.get ⟨i, hi⟩ ∈ targets.take i

/-! ## Content decoders (`hip/decoders.py`)

The decoders delegate the actual compression formats to the external
`zlib` module, which is not part of this repository.  The model below
keeps exactly the contract the decoders rely on: each compressed stream
is self-delimiting, carries a distinguishable header (gzip `1f 8b`,
zlib-wrapped deflate `78`, raw deflate modelled with its own tag),
decompression inverts compression and reports trailing unused data, and
decompressing data in a different format fails (`zlib.error`).
Decompression is modelled one-shot (the whole body in a single
`decompress` call), which is how the round-trip claims exercise it. -/

/-- Modelled from the spec: the payload framing of the external zlib
codecs — a unary length followed by the payload, making every member
self-delimiting. -/
def countFrame (d : List Nat) : List Nat := List.replicate d.length 1 ++ 0 :: d

/-- Read back a unary count. -/
def readUnary : List Nat → Option (Nat × List Nat)
  | [] => none
  | 0 :: rest => some (0, rest)
  | 1 :: rest =>
      match readUnary rest with
      | some (n, r) => some (n + 1, r)
      | none => none
  | _ => none

/-- Read back one `countFrame`: the payload and the unused remainder. -/
def readFrame (l : List Nat) : Option (List Nat × List Nat) :=
  match readUnary l with
  | some (n, r) => if n ≤ r.length then some (r.take n, r.drop n) else none
  | none => none

/-- Modelled from the spec: `gzip.compress` of the external zlib — a
`1f 8b` header followed by one framed member. -/
def gzipCompress (d : List Nat) : List Nat := 0x1F :: 0x8B :: countFrame d

/-- Modelled from the spec: zlib-wrapped deflate compression (`78`
header), the `deflate` content coding. -/
def zlibCompress (d : List Nat) : List Nat := 0x78 :: countFrame d

/-- Modelled from the spec: `zlib.decompressobj(16 + MAX_WBITS)` run over
one gzip member — the decompressed payload and the unused trailing data,
`none` (a `zlib.error`) when the data is not a gzip stream. -/
def gzipMemberDecompress : List Nat → Option (List Nat × List Nat)
  | 0x1F :: 0x8B :: rest => readFrame rest
  | _ => none

/-- Modelled from the spec: `zlib.decompressobj()` (zlib-wrapped) run over
a whole stream. -/
def zlibDecompress : List Nat → Option (List Nat × List Nat)
  | 0x78 :: rest => readFrame rest
  | _ => none

/-- Modelled from the spec: `zlib.decompressobj(-MAX_WBITS)` (raw
deflate); the model gives raw streams their own tag. -/
def rawDeflateDecompress : List Nat → Option (List Nat × List Nat)
  | 0x02 :: rest => readFrame rest
  | _ => none

/-- `IdentityDecoder.decompress`. -/
def IdentityDecoder.decompress (data : List Nat) : List Nat := data

/-- `IdentityDecoder.flush`. -/
def IdentityDecoder.flush : List Nat := []

/-- The `while True` member loop of `GzipDecoder.decompress`, with fuel
(each member consumes at least three bytes, so `data.length` suffices):
accumulate members; on `zlib.error` tolerate trailing garbage after the
first member (`OTHER_MEMBERS`), otherwise re-raise. -/
def gzipLoop : Nat → Bool → List Nat → List Nat → Except Unit (List Nat)
  | 0, _, _, _ => .error ()
  | fuel + 1, otherMembers, acc, data =>
      match gzipMemberDecompress data with
      | none => if otherMembers then .ok acc else .error ()
      | some (out, unused) =>
          if unused.isEmpty then .ok (acc ++ out)
          else gzipLoop fuel true (acc ++ out) unused

/-- `GzipDecoder.decompress` applied once to the whole body (the
`SWALLOW_DATA` state never arises in a single call). -/
def GzipDecoder.decompress (data : List Nat) : Except Unit (List Nat) :=
  if data.isEmpty then .ok []
  else gzipLoop data.length false [] data

/-- `DeflateDecoder.decompress` applied once to the whole body: try the
zlib-wrapped format first, fall back to raw deflate on `zlib.error`. -/
def DeflateDecoder.decompress (data : List Nat) : Except Unit (List Nat) :=
  if data.isEmpty then .ok []
  else
    match zlibDecompress data with
    | some (out, _) => .ok out
    | none =>
        match rawDeflateDecompress data with
        | some (out, _) => .ok out
        | none => .error ()

/-- A decoder as its one-shot whole-body `decompress`. -/
abbrev DecoderFn := List Nat → Except Unit (List Nat)

/-- Python `str.strip()`: drop whitespace from both ends. -/
def pyStrip (s : String) : String :=
  ⟨((s.data.dropWhile Char.isWhitespace).reverse.dropWhile
      Char.isWhitespace).reverse⟩

/-- The accumulator loop of Python `str.split(",")`. -/
def splitCommaAux : List Char → List Char → List String
  | [], acc => [⟨acc.reverse⟩]
  | c :: rest, acc =>
      if c = ',' then ⟨acc.reverse⟩ :: splitCommaAux rest []
      else splitCommaAux rest (c :: acc)

/-- Python `content_encoding.split(",")`. -/
def pySplitComma (s : String) : List String := splitCommaAux s.data []

/-- `get_content_decoder` for a single (comma-free) content coding:
gzip/x-gzip, deflate/x-deflate, and the identity fallback for everything
unknown (brotli and zstd are absent in this environment). -/
def get_content_decoder_single (content_encoding : String) : DecoderFn :=
  let ce := pyStrip content_encoding
  if ce = "gzip" ∨ ce = "x-gzip" then GzipDecoder.decompress
  else if ce = "deflate" ∨ ce = "x-deflate" then DeflateDecoder.decompress
  else fun data => .ok (IdentityDecoder.decompress data)

/-- `MultiDecoder.__init__`: split the `Content-Encoding` list on commas,
build a decoder per stripped coding, and *reverse* (the sender lists
codings in application order). -/
def MultiDecoder.decompressors (content_encoding : String) : List DecoderFn :=
  ((pySplitComma content_encoding).map
    (fun m => get_content_decoder_single (pyStrip m))).reverse

/-- The `for d in self._decompressors: data = d.decompress(data)` loop,
propagating any `zlib.error`. -/
def runDecoders : List DecoderFn → List Nat → Except Unit (List Nat)
  | [], data => .ok data
  | dec :: rest, data =>
      match dec data with
      | .ok out => runDecoders rest out
      | .error e => .error e

/-- `MultiDecoder.decompress`. -/
def MultiDecoder.decompress (content_encoding : String) (data : List Nat) :
    Except Unit (List Nat) :=
  runDecoders (MultiDecoder.decompressors content_encoding) data

/-! ## Specification-side predicates used to state the claims -/

/-- Claim C6's formula for the delay, following the claim's words:
`max(backoff_delay, retry_after_delay)` with
`backoff_delay = min(max_backoff, backoff_factor * 2^(counter-1) * jitter)`,
`jitter = (1 - j) + uniform(0, j)`, and `retry_after_delay` the parsed
`Retry-After` value (0 when unparseable) capped at `max_retry_after`.
A `none` bound means no cap. -/
def delayClaimSpec (r : Retry) (rand : ℚ) (resp : BaseResponse) : ℚ :=
  let jitter := (1 - r.backoff_jitter) + rand
  let raw := r.backoff_factor * (2 : ℚ) ^ (r.backoff_counter - 1) * jitter
  let backoff := match r.max_backoff with
    | some mb => min mb raw
    | none => raw
  let parsed := match resp.headers.get_one "Retry-After" (some "0") with
    | none => 0
    | some s => (parseDecimal s).getD 0
  let retry_after := match r.max_retry_after with
    | some mra => min mra parsed
    | none => parsed
  max backoff retry_after

/-- The amended description of `delay_before_next_request`: the same
`max` of backoff and `Retry-After` delays, but the `Retry-After` value is
*not* capped at `max_retry_after`, HTTP-dates are *not* supported, and an
unparseable non-empty value raises `ValueError` instead of counting as 0;
the backoff term is 0 whenever `max_backoff ≤ 0` (the default). -/
def delayAmendedSpec (r : Retry) (rand : ℚ) (resp : Option BaseResponse) :
    Except Unit ℚ :=
  let jitter := if 0 < r.backoff_jitter then (1 - r.backoff_jitter) + rand else 1
  let raw := r.backoff_factor * (2 : ℚ) ^ (r.backoff_counter - 1) * jitter
  let backoff := match r.max_backoff with
    | some mb => if mb ≤ 0 then 0 else min mb raw
    | none => raw
  match resp with
  | none => .ok backoff
  | some resp =>
      match resp.headers.get_one "Retry-After" (some "0") with
      | none => .ok (max backoff 0)
      | some s =>
          if s = "" then .ok (max backoff 0)
          else
            match parseDecimal s with
            | some q => .ok (max backoff q)
            | none => .error ()


/-- The unreserved set of claim C9: ASCII letters, digits, `-`, `.`, `_`,
`~`, plus `*`. -/
def urlencClaimKeep (b : Nat) : Prop :=
  (0x41 ≤ b ∧ b ≤ 0x5A) ∨ (0x61 ≤ b ∧ b ≤ 0x7A) ∨ (0x30 ≤ b ∧ b ≤ 0x39) ∨
    b = 0x2D ∨ b = 0x2E ∨ b = 0x5F ∨ b = 0x7E ∨ b = 0x2A

instance (b : Nat) : Decidable (urlencClaimKeep b) := by
  unfold urlencClaimKeep; exact inferInstance

/-- Two-digit upper-case hex, as claim C9 words the encoded form. -/
def twoDigitUpperHex (b : Nat) : List Nat :=
  [hexDigitUpper (b / 16), hexDigitUpper (b % 16)]

/-- Claim C9, literally as stated, at one byte: unencoded iff in the
unreserved set plus `*`; space becomes `+`; everything else becomes `%`
followed by two upper-case hex digits. -/
def urlencClaimHolds (b : Nat) : Prop :=
  (int_to_urlenc b = [b] ↔ urlencClaimKeep b) ∧
  (b = 0x20 → int_to_urlenc b = [0x2B]) ∧
  (¬urlencClaimKeep b → b ≠ 0x20 → int_to_urlenc b = 0x25 :: twoDigitUpperHex b)

instance (b : Nat) : Decidable (urlencClaimHolds b) := by
  unfold urlencClaimHolds; exact inferInstance

/-- The amended description of the table actually built by
`_int_to_urlenc`: kept unencoded iff lower-case letter, or in the range
`0x30..0x5A` other than `@` (digits, `: ; < = > ?`, upper-case letters),
or one of `* - . _`; space becomes `+`; everything else becomes `%`
followed by the upper-case hex digits of the byte with no zero padding
(a single digit for bytes below `0x10`). -/
def urlencAmendedHolds (b : Nat) : Prop :=
  (int_to_urlenc b = [b] ↔
    ((0x61 ≤ b ∧ b ≤ 0x7A) ∨ (0x30 ≤ b ∧ b ≤ 0x5A ∧ b ≠ 0x40) ∨
      b = 0x2A ∨ b = 0x2D ∨ b = 0x2E ∨ b = 0x5F)) ∧
  (b = 0x20 → int_to_urlenc b = [0x2B]) ∧
  (¬(int_to_urlenc b = [b]) → b ≠ 0x20 → 0x10 ≤ b →
    int_to_urlenc b = 0x25 :: twoDigitUpperHex b) ∧
  (¬(int_to_urlenc b = [b]) → b < 0x10 →
    int_to_urlenc b = [0x25, hexDigitUpper b])

instance (b : Nat) : Decidable (urlencAmendedHolds b) := by
  unfold urlencAmendedHolds; exact inferInstance

/-! ## Helper lemmas about the `Headers` model -/

theorem dictFind_dictAppend (d : HeaderDict) (k k0 : String)
    (item : String × Option String) :
    dictFind (dictAppend d k0 item) k =
      if k0 = k then some ((dictFind d k0).getD [] ++ [item]) else dictFind d k := by
  induction d with
  | nil =>
      by_cases hk : k0 = k <;> simp [dictAppend, dictFind, hk]
  | cons hd tl ih =>
      obtain ⟨k1, es⟩ := hd
      by_cases h1 : k1 = k0
      · subst h1
        by_cases hk : k1 = k <;> simp [dictAppend, dictFind, hk]
      · by_cases hk : k1 = k
        · subst hk
          have hne : ¬k0 = k1 := fun h => h1 h.symm
          simp [dictAppend, dictFind, h1, hne]
        · simp [dictAppend, dictFind, h1, hk, ih]

theorem get_all_add (h : Headers) (k k0 : String) (v : Option String) :
    (h.add k0 v).get_all k =
      h.get_all k ++ (if normKey k0 = normKey k then [v] else []) := by
  unfold Headers.add Headers.get_all
  rw [dictFind_dictAppend]
  by_cases hk : normKey k0 = normKey k
  · rw [if_pos hk, if_pos hk, hk]
    cases hfind : dictFind h.internal (normKey k) <;> simp [hfind]
  · rw [if_neg hk, if_neg hk]
    cases dictFind h.internal (normKey k) <;> simp

theorem get_all_foldl (l : List (String × Option String)) (h : Headers)
    (k : String) :
    (l.foldl (fun h kv => h.add kv.1 kv.2) h).get_all k =
      h.get_all k ++
        (l.filter fun kv => normKey kv.1 = normKey k).map Prod.snd := by
  induction l generalizing h with
  | nil => simp
  | cons hd tl ih =>
      obtain ⟨k1, v1⟩ := hd
      simp only [List.foldl_cons, List.filter_cons]
      rw [ih, get_all_add]
      by_cases hk : normKey k1 = normKey k
      · simp [hk]
      · simp [hk]

theorem get_all_ofList (l : List (String × Option String)) (k : String) :
    (Headers.ofList l).get_all k =
      (l.filter fun kv => normKey kv.1 = normKey k).map Prod.snd := by
  have h := get_all_foldl l ⟨[]⟩ k
  simpa [Headers.ofList, Headers.get_all, dictFind] using h

theorem dictFind_dictRemove (d : HeaderDict) (k k0 : String) :
    dictFind (dictRemove d k0) k =
      if k0 = k then none else dictFind d k := by
  induction d with
  | nil => by_cases hk : k0 = k <;> simp [dictRemove, dictFind, hk]
  | cons hd tl ih =>
      obtain ⟨k1, es⟩ := hd
      by_cases h1 : k1 = k0
      · subst h1
        by_cases hk : k1 = k
        · subst hk
          simpa [dictRemove, dictFind] using ih
        · simp [dictRemove, dictFind, hk, ih]
      · by_cases hk : k1 = k
        · subst hk
          have hne : ¬k0 = k1 := fun h => h1 h.symm
          simp [dictRemove, dictFind, h1, hne]
        · simp [dictRemove, dictFind, h1, hk, ih]

theorem dictFind_dictSetdefault (d : HeaderDict) (k k0 : String)
    (default : HeaderBucket) :
    dictFind (dictSetdefault d k0 default).1 k =
      if k0 = k then some ((dictFind d k0).getD default)
      else dictFind d k := by
  induction d with
  | nil => by_cases hk : k0 = k <;> simp [dictSetdefault, dictFind, hk]
  | cons hd tl ih =>
      obtain ⟨k1, es⟩ := hd
      by_cases h1 : k1 = k0
      · subst h1
        by_cases hk : k1 = k <;> simp [dictSetdefault, dictFind, hk]
      · by_cases hk : k1 = k
        · subst hk
          have hne : ¬k0 = k1 := fun h => h1 h.symm
          simp [dictSetdefault, dictFind, h1, hne]
        · simp [dictSetdefault, dictFind, h1, hk, ih]

theorem contains_pop_all (h : Headers) (k k0 : String) :
    (h.pop_all k0).contains k =
      if normKey k0 = normKey k then false else h.contains k := by
  simp only [Headers.pop_all, Headers.contains, dictFind_dictRemove]
  by_cases hk : normKey k0 = normKey k <;> simp [hk]

theorem contains_setdefault_ne (h : Headers) (k k0 : String) (v : Option String)
    (hk : normKey k0 ≠ normKey k) :
    (h.setdefault k0 v).contains k = h.contains k := by
  simp [Headers.setdefault, Headers.contains, dictFind_dictSetdefault, hk]

theorem contains_prepare_request (m : String) (u : URL) (h : Headers) :
    (prepare_request m u h).headers.contains "authorization" =
      h.contains "authorization" := by
  have d1 : normKey "host" ≠ normKey "authorization" := by decide
  have d2 : normKey "accept" ≠ normKey "authorization" := by decide
  have d3 : normKey "user-agent" ≠ normKey "authorization" := by decide
  have d4 : normKey "accept-encoding" ≠ normKey "authorization" := by decide
  have d5 : normKey "connection" ≠ normKey "authorization" := by decide
  show (((((if h.contains "host" then h
        else h.setdefault "host" (some _)).setdefault "accept"
        (some "*/*")).setdefault "user-agent"
        (some userAgentValue)).setdefault "accept-encoding"
        (some acceptEncodingValue)).setdefault "connection"
        (some "keep-alive")).contains "authorization" = h.contains "authorization"
  rw [contains_setdefault_ne _ _ _ _ d5, contains_setdefault_ne _ _ _ _ d4,
    contains_setdefault_ne _ _ _ _ d3, contains_setdefault_ne _ _ _ _ d2]
  by_cases hh : h.contains "host" = true
  · rw [if_pos hh]
  · rw [if_neg hh, contains_setdefault_ne _ _ _ _ d1]

theorem url_prepare_request (m : String) (u : URL) (h : Headers) :
    (prepare_request m u h).url = u := rfl

theorem redirectNewRequest_url (request : Request) (resp : BaseResponse)
    (newUrl : URL) : (redirectNewRequest request resp newUrl).url = newUrl := by
  unfold redirectNewRequest
  split <;> exact url_prepare_request _ _ _

theorem redirectNewRequest_auth (request : Request) (resp : BaseResponse)
    (newUrl : URL) :
    (redirectNewRequest request resp newUrl).headers.contains "authorization" =
      request.headers.contains "authorization" := by
  have hbase : (prepare_request request.method newUrl
      ((request.headers.pop_all "host").pop_all "cookie")).headers.contains
        "authorization" = request.headers.contains "authorization" := by
    rw [contains_prepare_request, contains_pop_all, contains_pop_all]
    rw [if_neg (by decide : ¬(normKey "cookie" = normKey "authorization")),
      if_neg (by decide : ¬(normKey "host" = normKey "authorization"))]
  unfold redirectNewRequest
  split <;> exact hbase

theorem except_isOk_exists {ε α : Type} (x : Except ε α) (h : x.isOk = true) :
    ∃ a, x = .ok a := by
  cases x with
  | ok a => exact ⟨a, rfl⟩
  | error e => simp [Except.isOk, Except.toBool] at h

theorem prepare_redirect_ok (request : Request) (resp : BaseResponse)
    (newUrl : URL) (o n : Origin)
    (ho : request.url.origin = .ok o) (hn : newUrl.origin = .ok n) :
    ∃ res, prepare_redirect request resp newUrl = .ok res ∧
      res.url = newUrl := by
  have h2o : (redirectNewRequest request resp newUrl).url.origin = .ok n := by
    rw [redirectNewRequest_url]; exact hn
  unfold prepare_redirect
  simp only [ho, h2o]
  by_cases hon : o ≠ n
  · rw [if_pos hon]
    by_cases hup : ¬(o.scheme = "http" ∧ n.scheme = "https" ∧
        (n.port = o.port ∨ (n.port = 443 ∧ o.port = 80)))
    · rw [if_pos hup]
      exact ⟨_, rfl, redirectNewRequest_url _ _ _⟩
    · rw [if_neg hup]
      exact ⟨_, rfl, redirectNewRequest_url _ _ _⟩
  · rw [if_neg hon]
    exact ⟨_, rfl, redirectNewRequest_url _ _ _⟩

/-! ## Helper lemmas about the 100-continue pump -/

theorem traceCleared_append (tr l : List TraceEvent) :
    traceCleared (tr ++ l) = (traceCleared tr || traceCleared l) := by
  induction tr with
  | nil => rfl
  | cons e rest ih =>
      cases e <;> simp [traceCleared, ih, Bool.or_assoc]

theorem noData_append_received (tr : List TraceEvent) (evs : List H11Event) :
    noDataBeforeResponse tr = true →
    noDataBeforeResponse (tr ++ [.received evs]) = true := by
  induction tr with
  | nil =>
      intro _
      simp [noDataBeforeResponse]
  | cons e rest ih =>
      intro h
      cases e with
      | sent b => simp [noDataBeforeResponse] at h
      | received evs2 =>
          simp only [noDataBeforeResponse, List.cons_append,
            Bool.or_eq_true] at h ⊢
          rcases h with h | h
          · exact Or.inl h
          · exact Or.inr (ih h)

theorem noData_append_sent (tr : List TraceEvent) (b : List Nat) :
    noDataBeforeResponse tr = true → traceCleared tr = true →
    noDataBeforeResponse (tr ++ [.sent b]) = true := by
  induction tr with
  | nil =>
      intro _ h2
      simp [traceCleared] at h2
  | cons e rest ih =>
      intro h1 h2
      cases e with
      | sent b2 => simp [noDataBeforeResponse] at h1
      | received evs =>
          simp only [noDataBeforeResponse, traceCleared, List.cons_append,
            Bool.or_eq_true] at h1 h2 ⊢
          rcases h1 with h1 | h1
          · exact Or.inl h1
          · rcases h2 with h2 | h2
            · exact Or.inl h2
            · exact Or.inr (ih h1 h2)

theorem consumeEvents_expect100 (evs : List H11Event) :
    ∀ cs : ConsumeState, (consumeEvents cs evs).1.expect100 = false →
      cs.expect100 = false ∨ H11Event.informationalResponse 100 ∈ evs := by
  induction evs with
  | nil => intro cs h; exact Or.inl h
  | cons e rest ih =>
      intro cs h
      cases e with
      | informationalResponse s =>
          by_cases hcs : cs.expect100 = false
          · exact Or.inl hcs
          · have hcs2 : cs.expect100 = true := by
              cases hb : cs.expect100 with
              | false => exact absurd hb hcs
              | true => rfl
            by_cases hs : s = 100
            · exact Or.inr (hs ▸ List.mem_cons_self _ _)
            · simp only [consumeEvents] at h
              have hstay : (if cs.expect100 && decide (s = 100) then false
                  else cs.expect100) = true := by
                simp [hcs2, hs]
              rcases ih _ h with hfalse | hmem
              · have hfalse2 : (if cs.expect100 && decide (s = 100) then false
                    else cs.expect100) = false := hfalse
                rw [hstay] at hfalse2
                exact absurd hfalse2 (by simp)
              · exact Or.inr (List.mem_cons_of_mem _ hmem)
      | responseEvent s =>
          exact Or.inl h

theorem consumeEvents_abort (evs : List H11Event) :
    ∀ cs : ConsumeState, (consumeEvents cs evs).2 = true ↔
      ∃ s, H11Event.responseEvent s ∈ evs := by
  induction evs with
  | nil =>
      intro cs
      simp [consumeEvents]
  | cons e rest ih =>
      intro cs
      cases e with
      | informationalResponse s =>
          simp only [consumeEvents]
          rw [ih]
          constructor
          · rintro ⟨s2, hs2⟩
            exact ⟨s2, List.mem_cons_of_mem _ hs2⟩
          · rintro ⟨s2, hs2⟩
            rcases List.mem_cons.mp hs2 with hs2 | hs2
            · exact absurd hs2 (by simp)
            · exact ⟨s2, hs2⟩
      | responseEvent s =>
          constructor
          · intro _
            exact ⟨s, List.mem_cons_self _ _⟩
          · intro _
            rfl

theorem mem_chunkHasResponse100 (evs : List H11Event)
    (h : H11Event.informationalResponse 100 ∈ evs) :
    chunkHasResponse100 evs = true := by
  simp only [chunkHasResponse100, List.any_eq_true]
  exact ⟨_, h, by simp [eventClearsOrEnds]⟩

/-- The pump invariant behind the 100-continue property: the trace so far
is clean, and until a clearing chunk has been received the gate is still
set and no outbound bytes are pending. -/
def PumpInv (st : PumpState) : Prop :=
  noDataBeforeResponse st.trace = true ∧
  (traceCleared st.trace = false →
    st.cs.expect100 = true ∧ st.outgoing = none)

theorem producePhase_inv (st : PumpState) (h : PumpInv st) :
    PumpInv (producePhase st) := by
  unfold producePhase
  split
  case isTrue hcond =>
    split
    case isTrue hexp => exact ⟨h.1, fun _ => ⟨hexp, hcond.2.1⟩⟩
    case isFalse hexp =>
      split
      · exact ⟨h.1, fun hf => absurd (h.2 hf).1 hexp⟩
      · exact ⟨h.1, fun hf => absurd (h.2 hf).1 hexp⟩
  case isFalse hcond => exact h

theorem sendPhase_fst_inv (st : PumpState) (h : PumpInv st) :
    PumpInv (sendPhase st).1 := by
  obtain ⟨cs, body, inbound, outgoing, fin, wait, tr⟩ := st
  cases outgoing with
  | none => exact h
  | some b =>
      simp only [sendPhase]
      by_cases hcond : ¬fin = true ∧ ¬wait = true
      · rw [if_pos hcond]
        have hcl : traceCleared tr = true := by
          cases hc : traceCleared tr with
          | true => rfl
          | false => exact absurd (h.2 hc).2 (by simp)
        refine ⟨noData_append_sent tr b h.1 hcl, ?_⟩
        intro hf
        exfalso
        have hf2 : traceCleared (tr ++ [.sent b]) = false := hf
        rw [traceCleared_append] at hf2
        simp [hcl] at hf2
      · rw [if_neg hcond]
        exact h

theorem pumpStep_fst_inv (r : Bool) (st : PumpState) (h : PumpInv st) :
    PumpInv (pumpStep r st).1 := by
  unfold pumpStep
  have h1 := producePhase_inv st h
  cases r with
  | false => exact sendPhase_fst_inv _ h1
  | true =>
      cases hin : (producePhase st).inbound with
      | nil =>
          simp only [hin]
          exact sendPhase_fst_inv _ h1
      | cons evs restIn =>
          simp only [hin]
          have h2 : PumpInv
              { producePhase st with
                cs := (consumeEvents (producePhase st).cs evs).1
                inbound := restIn
                waitingForRead := false
                trace := (producePhase st).trace ++ [.received evs] } := by
            constructor
            · exact noData_append_received _ _ h1.1
            · intro hf
              rw [traceCleared_append] at hf
              simp only [traceCleared, Bool.or_false, Bool.or_eq_false_iff]
                at hf
              obtain ⟨hfa, hfb⟩ := hf
              obtain ⟨hexp, hout⟩ := h1.2 hfa
              constructor
              · cases hc : (consumeEvents (producePhase st).cs evs).1.expect100
                  with
                | true => rfl
                | false =>
                    rcases consumeEvents_expect100 evs _ hc with hbad | hbad
                    · rw [hexp] at hbad
                      exact absurd hbad (by simp)
                    · exact absurd (mem_chunkHasResponse100 evs hbad)
                        (by simp [hfb])
              · exact hout
          split
          · exact h2
          · exact sendPhase_fst_inv _ h2

theorem runPump_fst_inv (sched : List Bool) :
    ∀ st : PumpState, PumpInv st → PumpInv (runPump sched st).1 := by
  induction sched with
  | nil => intro st h; exact h
  | cons ready rest ih =>
      intro st h
      rw [runPump]
      split
      · exact pumpStep_fst_inv ready st h
      · exact ih _ (pumpStep_fst_inv ready st h)

/-! ## Helper lemmas about the session redirect loop -/

theorem sessionLoop_detects (steps : List (BaseResponse × URL)) :
    ∀ (request : Request) (visited : List URL),
      (request.url.origin).isOk = true →
      allRedirects steps → allOriginsOk steps →
      hasRepeat visited (steps.map Prod.snd) →
      sessionLoop .noneV request visited steps = .redirectLoopDetected := by
  induction steps with
  | nil =>
      intro request visited _ _ _ hrep
      obtain ⟨i, hi, _⟩ := hrep
      simp at hi
  | cons p rest ih =>
      obtain ⟨resp, t⟩ := p
      intro request visited hro hred hok hrep
      have hredhd : resp.is_redirect = true := hred _ (List.mem_cons_self _ _)
      have htok : (t.origin).isOk = true := hok _ (List.mem_cons_self _ _)
      obtain ⟨o, ho⟩ := except_isOk_exists _ hro
      obtain ⟨n, hn⟩ := except_isOk_exists _ htok
      obtain ⟨res, hres, hresurl⟩ := prepare_redirect_ok request resp t o n ho hn
      rw [sessionLoop]
      rw [if_pos (⟨rfl, hredhd⟩ :
        Redirects.isNotFalse .noneV = true ∧ resp.is_redirect = true)]
      rw [if_neg (fun h => by
        exact absurd h.1 (by decide :
          ¬(Redirects.isInstanceInt .noneV = true)))]
      simp only [hres]
      rw [hresurl]
      by_cases hmem : t ∈ visited
      · rw [if_pos hmem]
      · rw [if_neg hmem]
        have hnext : hasRepeat (t :: visited) (rest.map Prod.snd) := by
          obtain ⟨i, hi, hcase⟩ := hrep
          cases i with
          | zero =>
              exfalso
              simp only [List.map_cons, List.get] at hcase
              rcases hcase with hcase | hcase
              · exact hmem hcase
              · simp at hcase
          | succ j =>
              have hj : j < (rest.map Prod.snd).length := by
                simpa using Nat.lt_of_succ_lt_succ hi
              refine ⟨j, hj, ?_⟩
              simp only [List.map_cons, List.get, List.take_succ_cons] at hcase
              rcases hcase with hcase | hcase
              · exact Or.inl (List.mem_cons_of_mem _ hcase)
              · rcases List.mem_cons.mp hcase with hcase | hcase
                · exact Or.inl (hcase ▸ List.mem_cons_self _ _)
                · exact Or.inr hcase
        have hro2 : (res.url.origin).isOk = true := by
          rw [hresurl, hn]; rfl
        have hif : (if Redirects.isInstanceInt .noneV = true then
            Redirects.intV (Redirects.intVal .noneV - 1)
          else Redirects.noneV) = Redirects.noneV := by decide
        rw [hif]
        exact ih res (t :: visited) hro2
          (fun q hq => hred q (List.mem_cons_of_mem _ hq))
          (fun q hq => hok q (List.mem_cons_of_mem _ hq)) hnext

theorem sessionLoop_tooMany (steps : List (BaseResponse × URL)) :
    ∀ (n : Int) (request : Request) (visited : List URL),
      0 ≤ n → n < (steps.length : Int) →
      (request.url.origin).isOk = true →
      allRedirects steps → allOriginsOk steps →
      (∀ p ∈ steps, p.2 ∉ visited) →
      (steps.map Prod.snd).Nodup →
      sessionLoop (.intV n) request visited steps = .tooManyRedirects := by
  induction steps with
  | nil =>
      intro n request visited hn hlen _ _ _ _ _
      simp at hlen
      omega
  | cons p rest ih =>
      obtain ⟨resp, t⟩ := p
      intro n request visited hn hlen hro hred hok hfresh hnodup
      have hredhd : resp.is_redirect = true := hred _ (List.mem_cons_self _ _)
      have htok : (t.origin).isOk = true := hok _ (List.mem_cons_self _ _)
      obtain ⟨o, ho⟩ := except_isOk_exists _ hro
      obtain ⟨n2, hn2⟩ := except_isOk_exists _ htok
      obtain ⟨res, hres, hresurl⟩ := prepare_redirect_ok request resp t o n2 ho hn2
      rw [sessionLoop]
      rw [if_pos (⟨rfl, hredhd⟩ :
        Redirects.isNotFalse (.intV n) = true ∧ resp.is_redirect = true)]
      by_cases hz : n = 0
      · subst hz
        rw [if_pos (⟨rfl, rfl⟩ :
          Redirects.isInstanceInt (.intV 0) = true ∧
            Redirects.intVal (.intV 0) = 0)]
      · rw [if_neg (fun h => hz (by
          simpa [Redirects.intVal] using h.2))]
        simp only [hres]
        rw [hresurl]
        rw [if_neg (hfresh _ (List.mem_cons_self _ _))]
        have hro2 : (res.url.origin).isOk = true := by
          rw [hresurl, hn2]; rfl
        have hif : (if Redirects.isInstanceInt (.intV n) = true then
            Redirects.intV (Redirects.intVal (.intV n) - 1)
          else Redirects.intV n) = Redirects.intV (n - 1) := by
          simp [Redirects.isInstanceInt, Redirects.intVal]
        rw [hif]
        rw [List.map_cons] at hnodup
        have hpair := List.nodup_cons.mp hnodup
        have htnotin := hpair.1
        have hnodup2 := hpair.2
        refine ih (n - 1) res (t :: visited) (by omega) ?_ hro2
          (fun q hq => hred q (List.mem_cons_of_mem _ hq))
          (fun q hq => hok q (List.mem_cons_of_mem _ hq)) ?_ hnodup2
        · simp only [List.length_cons] at hlen
          push_cast at hlen ⊢
          omega
        · intro q hq
          intro hqmem
          rcases List.mem_cons.mp hqmem with hqt | hqv
          · have hmapmem : q.2 ∈ rest.map Prod.snd :=
              List.mem_map_of_mem Prod.snd hq
            rw [hqt] at hmapmem
            exact htnotin hmapmem
          · exact hfresh q (List.mem_cons_of_mem _ hq) hqv

/-! ## Helper lemmas about the decoder models -/

theorem readUnary_replicate (n : Nat) (r : List Nat) :
    readUnary (List.replicate n 1 ++ 0 :: r) = some (n, r) := by
  induction n with
  | zero => rfl
  | succ n ih => simp [List.replicate_succ, readUnary, ih]

theorem readFrame_countFrame (d rest : List Nat) :
    readFrame (countFrame d ++ rest) = some (d, rest) := by
  have h : countFrame d ++ rest =
      List.replicate d.length 1 ++ 0 :: (d ++ rest) := by
    simp [countFrame]
  rw [readFrame, h, readUnary_replicate]
  simp

theorem gzip_roundtrip (d : List Nat) :
    GzipDecoder.decompress (gzipCompress d) = .ok d := by
  have hframe : readFrame (countFrame d) = some (d, []) := by
    simpa using readFrame_countFrame d []
  have hmember : gzipMemberDecompress (0x1F :: 0x8B :: countFrame d) =
      readFrame (countFrame d) := rfl
  show gzipLoop (0x1F :: 0x8B :: countFrame d).length false []
      (0x1F :: 0x8B :: countFrame d) = .ok d
  simp [List.length_cons, gzipLoop, hmember, hframe]

theorem deflate_zlib_roundtrip (d : List Nat) :
    DeflateDecoder.decompress (zlibCompress d) = .ok d := by
  have h : zlibDecompress (0x78 :: countFrame d) = some (d, []) := by
    show readFrame (countFrame d) = some (d, [])
    simpa using readFrame_countFrame d []
  show DeflateDecoder.decompress (0x78 :: countFrame d) = .ok d
  simp [DeflateDecoder.decompress, h]

/-! ## Helper lemmas about the chunker -/

theorem splitChunksFuel_spec (n : Nat) (hn : 0 < n) :
    ∀ (fuel : Nat) (buf : List Nat), buf.length ≤ fuel →
      (splitChunksFuel fuel n buf).1.flatten ++ (splitChunksFuel fuel n buf).2 = buf ∧
      (∀ c ∈ (splitChunksFuel fuel n buf).1, c.length = n) ∧
      (splitChunksFuel fuel n buf).2.length < n := by
  intro fuel
  induction fuel with
  | zero =>
      intro buf hlen
      have : buf = [] := List.eq_nil_of_length_eq_zero (Nat.le_zero.mp hlen)
      subst this
      simpa [splitChunksFuel] using hn
  | succ fuel ih =>
      intro buf hlen
      by_cases hcond : 0 < n ∧ n ≤ buf.length
      · have hrec := ih (buf.drop n) (by simp; omega)
        simp only [splitChunksFuel, if_pos hcond]
        refine ⟨?_, ?_, hrec.2.2⟩
        · simp only [List.flatten_cons, List.append_assoc, hrec.1]
          exact List.take_append_drop n buf
        · intro c hc
          rcases List.mem_cons.mp hc with hc | hc
          · subst hc
            simp [List.length_take]
            omega
          · exact hrec.2.1 c hc
      · simp only [splitChunksFuel, if_neg hcond]
        refine ⟨by simp, by simp, ?_⟩
        push_neg at hcond
        exact hcond hn

theorem splitChunks_spec (n : Nat) (hn : 0 < n) (buf : List Nat) :
    (splitChunks n buf).1.flatten ++ (splitChunks n buf).2 = buf ∧
    (∀ c ∈ (splitChunks n buf).1, c.length = n) ∧
    (splitChunks n buf).2.length < n :=
  splitChunksFuel_spec n hn buf.length buf le_rfl

theorem feedAll_spec (n : Nat) (hn : 0 < n) (inputs : List (List Nat)) :
    ∀ (buf : List Nat),
      ((BytesChunker.mk (some n) buf).feedAll inputs).1.flatten ++
          ((BytesChunker.mk (some n) buf).feedAll inputs).2.byte_buffer =
        buf ++ inputs.flatten ∧
      (∀ c ∈ ((BytesChunker.mk (some n) buf).feedAll inputs).1, c.length = n) ∧
      ((BytesChunker.mk (some n) buf).feedAll inputs).2.chunk_size = some n ∧
      (buf.length < n →
        ((BytesChunker.mk (some n) buf).feedAll inputs).2.byte_buffer.length < n) := by
  induction inputs with
  | nil => intro buf; simp [BytesChunker.feedAll]
  | cons d rest ih =>
      intro buf
      have hsplit := splitChunks_spec n hn (buf ++ d)
      simp only [BytesChunker.feedAll, BytesChunker.feed]
      have ihr := ih (splitChunks n (buf ++ d)).2
      refine ⟨?_, ?_, ihr.2.2.1, fun _ => ihr.2.2.2 hsplit.2.2⟩
      · simp only [List.flatten_append, List.append_assoc]
        rw [ihr.1, ← List.append_assoc, hsplit.1]
        simp
      · intro c hc
        rcases List.mem_append.mp hc with hc | hc
        · exact hsplit.2.1 c hc
        · exact ihr.2.1 c hc

end Hip

/-! # The claims -/

/-- Claim C8 (confirmed): a response is a redirect if and only if its
status code is one of 301, 302, 303, 307, 308 and a `Location` header is
present. -/
theorem hip_C8_is_redirect_iff (r : Hip.BaseResponse) :
    r.is_redirect = true ↔
      (r.status_code = 301 ∨ r.status_code = 302 ∨ r.status_code = 303 ∨
        r.status_code = 307 ∨ r.status_code = 308) ∧
        r.headers.contains "Location" = true := by
  simp [Hip.BaseResponse.is_redirect, Hip.REDIRECT_STATUSES]

/-- Claim C7, counterexample: folding two values of an ordinary header
joins them with `"; "` (semicolon-space), not with `", "` (comma-space) as
the claim states. -/
theorem hip_C7_counterexample :
    (Hip.Headers.ofList
        [("Accept", some "text/html"), ("Accept", some "text/plain")]).get_folded
        "Accept" = .ok "text/html; text/plain" ∧
      "text/html; text/plain" ≠ "text/html, text/plain" := by
  constructor
  · rfl
  · decide

/-- Claim C7 (amended): for every header name other than `Set-Cookie`
(compared case-insensitively), folding joins the stored non-`None` values
with `"; "` (semicolon-space); for the `Set-Cookie` name the values are
never folded — `get_folded` raises instead. -/
theorem hip_C7_get_folded (l : List (String × Option String)) (k : String) :
    (Hip.normKey k = "set-cookie" →
      ∃ msg, (Hip.Headers.ofList l).get_folded k = .error msg) ∧
    (Hip.normKey k ≠ "set-cookie" →
      (Hip.Headers.ofList l).get_folded k =
        .ok (String.intercalate "; "
          ((l.filter fun kv => Hip.normKey kv.1 = Hip.normKey k).filterMap
            Prod.snd))) := by
  constructor
  · intro hsc
    exact ⟨"'Set-Cookie' header cannot be folded. Breaks semantics.",
      by simp [Hip.Headers.get_folded, hsc]⟩
  · intro hsc
    simp only [Hip.Headers.get_folded, if_neg hsc, Hip.get_all_ofList]
    rw [List.filterMap_map]
    rfl

/-- Witness for the amended claim C7 at concrete inputs: `Set-Cookie` is
refused, and a doubled `Accept` header folds with `"; "`. -/
theorem hip_C7_witness :
    (∃ msg, (Hip.Headers.ofList
        [("Set-Cookie", some "a=b"), ("Set-Cookie", some "c=d")]).get_folded
        "Set-Cookie" = .error msg) ∧
    (Hip.Headers.ofList
        [("Accept", some "text/html"), ("X-Other", none),
          ("accept", some "text/plain")]).get_folded "ACCEPT" =
      .ok "text/html; text/plain" := by
  constructor
  · exact (hip_C7_get_folded
      [("Set-Cookie", some "a=b"), ("Set-Cookie", some "c=d")] "Set-Cookie").1
      (by decide)
  · rw [(hip_C7_get_folded
      [("Accept", some "text/html"), ("X-Other", none),
        ("accept", some "text/plain")] "ACCEPT").2 (by decide)]
    rfl

/-- Claim C9, counterexample: byte `0x3A` (`:`) is left unencoded by the
table even though it is not in the unreserved set plus `*`, so the claimed
"if and only if" fails at `0x3A`. -/
theorem hip_C9_counterexample : ¬Hip.urlencClaimHolds 0x3A := by decide

/-- Claim C9 (amended): the table leaves a byte unencoded iff it is a
lower-case letter, or lies in `0x30..0x5A` and is not `@` (that is:
digits, `: ; < = > ?`, upper-case letters), or is one of `* - . _`
(so `~` is percent-encoded); the space byte is encoded as `+`; every other
byte becomes `%` followed by its upper-case hex digits with no zero
padding (two digits for bytes at least `0x10`, one digit below). -/
theorem hip_C9_urlenc (b : Nat) (hb : b < 256) : Hip.urlencAmendedHolds b := by
  revert b
  set_option maxRecDepth 4000 in decide

/-- Witness for the amended claim C9 at bytes `0x3A`, `0x7E` and `0x0A`. -/
theorem hip_C9_witness :
    (0x3A < 256 ∧ Hip.urlencAmendedHolds 0x3A) ∧
    (0x7E < 256 ∧ Hip.urlencAmendedHolds 0x7E) ∧
    (0x0A < 256 ∧ Hip.urlencAmendedHolds 0x0A) :=
  ⟨⟨by decide, hip_C9_urlenc 0x3A (by decide)⟩,
    ⟨by decide, hip_C9_urlenc 0x7E (by decide)⟩,
    ⟨by decide, hip_C9_urlenc 0x0A (by decide)⟩⟩

/-- Claim C10 (confirmed): re-chunking is lossless and exact.  For every
`chunk_size = n > 0` and input sequence, the concatenation of all chunks
emitted by the feeds followed by the flush equals the concatenation of the
inputs; every chunk emitted by a feed has length exactly `n`; the flush
emits exactly one final chunk, of length `< n`.  With `chunk_size = None`,
`feed` passes each input through unchanged and `flush` emits nothing. -/
theorem hip_C10_bytesChunker (n : Nat) (hn : 0 < n) (inputs : List (List Nat)) :
    (((Hip.BytesChunker.init (some n)).feedAll inputs).1 ++
        ((Hip.BytesChunker.init (some n)).feedAll inputs).2.flush).flatten =
      inputs.flatten ∧
    (∀ c ∈ ((Hip.BytesChunker.init (some n)).feedAll inputs).1, c.length = n) ∧
    ((Hip.BytesChunker.init (some n)).feedAll inputs).2.flush.length = 1 ∧
    (∀ c ∈ ((Hip.BytesChunker.init (some n)).feedAll inputs).2.flush,
      c.length < n) ∧
    (∀ (buf data : List Nat),
      (Hip.BytesChunker.mk none buf).feed data =
        ([data], Hip.BytesChunker.mk none buf) ∧
      (Hip.BytesChunker.mk none buf).flush = []) := by
  have h := Hip.feedAll_spec n hn inputs []
  simp only [Hip.BytesChunker.init] at *
  obtain ⟨h1, h2, h3, h4⟩ := h
  have hbuf : (((Hip.BytesChunker.mk (some n) []).feedAll inputs)).2.flush =
      [((Hip.BytesChunker.mk (some n) []).feedAll inputs).2.byte_buffer] := by
    cases hfa : ((Hip.BytesChunker.mk (some n) []).feedAll inputs).2 with
    | mk cs bb =>
        have : cs = some n := by
          have := h3; rw [hfa] at this; exact this
        subst this
        rfl
  refine ⟨?_, h2, by rw [hbuf]; simp, ?_, fun buf data => ⟨rfl, rfl⟩⟩
  · rw [hbuf]
    simpa using h1
  · intro c hc
    rw [hbuf] at hc
    rcases List.mem_singleton.mp hc with rfl
    exact h4 (by simpa using hn)

/-- Witness for claim C10 at `n = 3` with inputs `[[1,2],[3,4,5],[6]]`. -/
theorem hip_C10_witness :
    0 < 3 ∧
    (((Hip.BytesChunker.init (some 3)).feedAll [[1, 2], [3, 4, 5], [6]]).1 ++
        ((Hip.BytesChunker.init (some 3)).feedAll
          [[1, 2], [3, 4, 5], [6]]).2.flush).flatten =
      ([[1, 2], [3, 4, 5], [6]] : List (List Nat)).flatten :=
  ⟨by decide, (hip_C10_bytesChunker 3 (by decide) [[1, 2], [3, 4, 5], [6]]).1⟩

/-- Claim C5, counterexample: data that was first deflated and then
gzipped (wire bytes `gzip(deflate(x))`) is *not* decoded by
`MultiDecoder("gzip,deflate")` — the reversed decoder list applies the
deflate decoder first, which fails on the gzip-framed stream
(`zlib.error`), so the result is an error, not the original data. -/
theorem hip_C5_counterexample :
    Hip.MultiDecoder.decompress "gzip,deflate"
        (Hip.gzipCompress (Hip.zlibCompress [0])) = .error () ∧
    (Except.error () : Except Unit (List Nat)) ≠ .ok [0] :=
  ⟨rfl, fun h => Except.noConfusion h⟩

/-- Claim C5 (amended): the identity decoder returns data unchanged; the
gzip decoder applied to gzip-compressed data returns the original data;
and `MultiDecoder("gzip,deflate")` decodes data that was first *gzipped*
and then *deflated* (the header lists codings in application order, so
the wire bytes are `deflate(gzip(data))` and the reversed decoder list
un-deflates first, then un-gzips). -/
theorem hip_C5_decoders (d : List Nat) :
    Hip.IdentityDecoder.decompress d = d ∧
    Hip.GzipDecoder.decompress (Hip.gzipCompress d) = .ok d ∧
    Hip.MultiDecoder.decompress "gzip,deflate"
      (Hip.zlibCompress (Hip.gzipCompress d)) = .ok d := by
  refine ⟨rfl, Hip.gzip_roundtrip d, ?_⟩
  have hdec : Hip.MultiDecoder.decompressors "gzip,deflate" =
      [Hip.DeflateDecoder.decompress, Hip.GzipDecoder.decompress] := rfl
  show Hip.runDecoders (Hip.MultiDecoder.decompressors "gzip,deflate")
    (Hip.zlibCompress (Hip.gzipCompress d)) = .ok d
  rw [hdec]
  simp [Hip.runDecoders, Hip.deflate_zlib_roundtrip, Hip.gzip_roundtrip]

/-- Claim C4 (confirmed): the binary pin length selects the hash
(16 → MD5, 20 → SHA-1, 32 → SHA-256, anything else raises the
configuration `ValueError`), and the verification raises
`CertificateFingerprintMismatch` if and only if the computed digest
differs from the pinned fingerprint (the comparison the source performs
via the constant-time `hmac.compare_digest`). -/
theorem hip_C4_fingerprint (md5 sha1 sha256 : List Nat → List Nat)
    (peercert : List Nat) (host fp : String) (e : List Nat)
    (he : Hip.unhexlify (Hip.stripColons fp) = some e) :
    (e.length ≠ 16 → e.length ≠ 20 → e.length ≠ 32 →
      Hip.verify_peercert_fingerprint md5 sha1 sha256 peercert (host, fp) =
        .valueError) ∧
    (e.length = 16 → Hip.algos md5 sha1 sha256 e.length = some md5) ∧
    (e.length = 20 → Hip.algos md5 sha1 sha256 e.length = some sha1) ∧
    (e.length = 32 → Hip.algos md5 sha1 sha256 e.length = some sha256) ∧
    (∀ algo, Hip.algos md5 sha1 sha256 e.length = some algo →
      (Hip.verify_peercert_fingerprint md5 sha1 sha256 peercert (host, fp) =
          .fingerprintMismatch (algo peercert) e ↔ algo peercert ≠ e) ∧
      (algo peercert = e →
        Hip.verify_peercert_fingerprint md5 sha1 sha256 peercert (host, fp) =
          .ok)) := by
  refine ⟨?_, ?_, ?_, ?_, ?_⟩
  · intro h16 h20 h32
    simp [Hip.verify_peercert_fingerprint, he, Hip.algos, h16, h20, h32]
  · intro h; simp [Hip.algos, h]
  · intro h; simp [Hip.algos, h]
  · intro h; simp [Hip.algos, h]
  · intro algo halgo
    have hv : Hip.verify_peercert_fingerprint md5 sha1 sha256 peercert (host, fp) =
        if e = algo peercert then .ok
        else .fingerprintMismatch (algo peercert) e := by
      simp only [Hip.verify_peercert_fingerprint, he, halgo]
    by_cases heq : e = algo peercert
    · rw [hv, if_pos heq]
      exact ⟨⟨fun h => by simp at h, fun h => absurd heq.symm h⟩, fun _ => rfl⟩
    · rw [hv, if_neg heq]
      exact ⟨⟨fun _ h => heq h.symm, fun _ => rfl⟩, fun h => absurd h.symm heq⟩

/-- Witness for claim C4 at concrete hash functions `fun _ => replicate`:
a matching 16-byte (MD5-length) pin verifies, a differing 16-byte pin
produces the mismatch carrying both fingerprints, and a 2-byte pin is a
configuration error. -/
theorem hip_C4_witness :
    Hip.verify_peercert_fingerprint (fun _ => List.replicate 16 0)
        (fun _ => List.replicate 20 1) (fun _ => List.replicate 32 2) [9]
        ("example.com", "00000000000000000000000000000000") = .ok ∧
    Hip.verify_peercert_fingerprint (fun _ => List.replicate 16 0)
        (fun _ => List.replicate 20 1) (fun _ => List.replicate 32 2) [9]
        ("example.com", "00000000000000000000000000000001") =
      .fingerprintMismatch (List.replicate 16 0)
        [0, 0, 0, 0, 0, 0, 0, 0, 0, 0, 0, 0, 0, 0, 0, 1] ∧
    Hip.verify_peercert_fingerprint (fun _ => List.replicate 16 0)
        (fun _ => List.replicate 20 1) (fun _ => List.replicate 32 2) [9]
        ("example.com", "0000") = .valueError := by
  refine ⟨?_, ?_, ?_⟩
  · exact ((hip_C4_fingerprint (fun _ => List.replicate 16 0)
      (fun _ => List.replicate 20 1) (fun _ => List.replicate 32 2) [9]
      "example.com" "00000000000000000000000000000000" (List.replicate 16 0)
      (by decide)).2.2.2.2 (fun _ => List.replicate 16 0) rfl).2
      (by decide)
  · refine ((hip_C4_fingerprint (fun _ => List.replicate 16 0)
      (fun _ => List.replicate 20 1) (fun _ => List.replicate 32 2) [9]
      "example.com" "00000000000000000000000000000001"
      [0, 0, 0, 0, 0, 0, 0, 0, 0, 0, 0, 0, 0, 0, 0, 1]
      (by decide)).2.2.2.2 (fun _ => List.replicate 16 0)
      rfl).1.mpr (by decide)
  · exact (hip_C4_fingerprint (fun _ => List.replicate 16 0)
      (fun _ => List.replicate 20 1) (fun _ => List.replicate 32 2) [9]
      "example.com" "0000" [0, 0] (by decide)).1 (by decide) (by decide)
      (by decide)

/-- Claim C1 (confirmed): for a request carrying `Expect: 100-continue`,
over every body, every inbound event sequence and every socket-readiness
schedule, the pump trace never contains a request-body send before a
chunk containing a 100 informational or the final response was received;
`produce_bytes` raises `BlockedUntilNextRead` whenever the gate is set;
the gate is only cleared by a 100 informational event (if it flips, the
consumed chunk contained `InformationalResponse 100`); and
`consume_bytes` raises `AbortSendAndReceive` exactly when the chunk
contains a final `Response` event. -/
theorem hip_C1_expect100_gate :
    (∀ (request : Hip.Request), Hip.expectGate request = true →
      ∀ (body : List (List Nat)) (inbound : List (List Hip.H11Event))
        (sched : List Bool),
      Hip.noDataBeforeResponse
        ((Hip.runPump sched
          (Hip.initPump (Hip.expectGate request) body inbound)).1.trace) =
        true) ∧
    (∀ body : List (List Nat),
      Hip.produceBytes true body = (.blocked, body)) ∧
    (∀ (cs : Hip.ConsumeState) (evs : List Hip.H11Event),
      cs.expect100 = true → (Hip.consumeEvents cs evs).1.expect100 = false →
      Hip.H11Event.informationalResponse 100 ∈ evs) ∧
    (∀ (cs : Hip.ConsumeState) (evs : List Hip.H11Event),
      (Hip.consumeEvents cs evs).2 = true ↔
        ∃ s, Hip.H11Event.responseEvent s ∈ evs) := by
  refine ⟨?_, ?_, ?_, ?_⟩
  · intro request hgate body inbound sched
    rw [hgate]
    have hinit : Hip.PumpInv (Hip.initPump true body inbound) := by
      refine ⟨rfl, fun _ => ⟨rfl, rfl⟩⟩
    exact (Hip.runPump_fst_inv sched _ hinit).1
  · intro body
    rfl
  · intro cs evs hset hclr
    rcases Hip.consumeEvents_expect100 evs cs hclr with hbad | hmem
    · rw [hset] at hbad
      exact absurd hbad (by simp)
    · exact hmem
  · intro cs evs
    exact Hip.consumeEvents_abort evs cs

/-- The claim C1 scenario request, carrying `Expect: 100-continue`. -/
def c1Request : Hip.Request :=
  ⟨"PUT", ⟨some "http", some "h", none⟩,
    Hip.Headers.ofList [("Expect", some "100-continue")]⟩

/-- Witness for claim C1: a concrete run — the peer sends a 100
informational and then the final response while the client has a one-chunk
body — produces a clean trace; and the gate-clearing instance at a
concrete consume state. -/
theorem hip_C1_witness :
    (Hip.expectGate c1Request = true ∧
      Hip.noDataBeforeResponse
        ((Hip.runPump [true, false, true]
          (Hip.initPump (Hip.expectGate c1Request) [[1, 2]]
            [[.informationalResponse 100], [.responseEvent 200]])).1.trace) =
        true) ∧
    Hip.H11Event.informationalResponse 100 ∈
      ([.informationalResponse 100] : List Hip.H11Event) := by
  refine ⟨⟨by decide, ?_⟩, ?_⟩
  · exact hip_C1_expect100_gate.1 c1Request (by decide) [[1, 2]]
      [[.informationalResponse 100], [.responseEvent 200]] [true, false, true]
  · exact hip_C1_expect100_gate.2.2.1 ⟨true, [], none⟩
      [.informationalResponse 100] rfl rfl

/-- A redirect scenario for claim C2: `http://a` (default port 80)
redirected to `https://b` (default port 443) — a cross-origin redirect
whose *host* changes. -/
def c2Request : Hip.Request :=
  ⟨"GET", ⟨some "http", some "a", none⟩,
    Hip.Headers.ofList [("Authorization", some "Basic dXNlcjpwYXNz")]⟩

/-- The 302 response of the claim C2 scenario. -/
def c2Response : Hip.BaseResponse :=
  ⟨302, "HTTP/1.1", Hip.Headers.ofList [("Location", some "https://b/")]⟩

/-- The resolved redirect target of the claim C2 scenario. -/
def c2NewUrl : Hip.URL := ⟨some "https", some "b", none⟩

/-- Claim C2, counterexample: the origins differ and the hosts differ
(`a` vs `b`), so the claim requires `Authorization` to be removed; the
code keeps it, because its `http → https` exception checks only schemes
and ports, never the host. -/
theorem hip_C2_counterexample :
    Except.map (fun r => r.headers.contains "authorization")
        (Hip.prepare_redirect c2Request c2Response c2NewUrl) = .ok true ∧
    c2Request.url.origin = .ok ⟨"http", "a", 80⟩ ∧
    c2NewUrl.origin = .ok ⟨"https", "b", 443⟩ ∧
    ("a" : String) ≠ "b" :=
  ⟨rfl, rfl, rfl, by decide⟩

/-- Claim C2 (amended): on a redirect whose origin is unchanged the
`Authorization` header is kept; on an origin change it is kept exactly
when the old scheme is `http`, the new scheme is `https`, and the new
effective port equals the old one or is 443 with the old one 80 — with
*no* requirement that the host stay the same; otherwise it is removed. -/
theorem hip_C2_redirect_auth (request : Hip.Request) (resp : Hip.BaseResponse)
    (newUrl : Hip.URL) (o n : Hip.Origin)
    (ho : request.url.origin = .ok o) (hn : newUrl.origin = .ok n) :
    Except.map (fun r => r.headers.contains "authorization")
        (Hip.prepare_redirect request resp newUrl) =
      .ok (request.headers.contains "authorization" &&
        (decide (o = n) ||
          decide (o.scheme = "http" ∧ n.scheme = "https" ∧
            (n.port = o.port ∨ (n.port = 443 ∧ o.port = 80))))) := by
  have h2o : (Hip.redirectNewRequest request resp newUrl).url.origin = .ok n := by
    rw [Hip.redirectNewRequest_url]; exact hn
  unfold Hip.prepare_redirect
  simp only [ho, h2o]
  by_cases hon : o = n
  · subst hon
    simp [Except.map, Hip.redirectNewRequest_auth]
  · rw [if_pos hon]
    by_cases hup : o.scheme = "http" ∧ n.scheme = "https" ∧
        (n.port = o.port ∨ (n.port = 443 ∧ o.port = 80))
    · rw [if_neg (not_not_intro hup)]
      simp [Except.map, Hip.redirectNewRequest_auth, hon, hup]
    · rw [if_pos hup]
      simp only [Except.map, Except.ok.injEq]
      rw [Hip.contains_pop_all,
        if_pos (rfl : Hip.normKey "authorization" = Hip.normKey "authorization")]
      simp [hon, hup]

/-- Witness for the amended claim C2 at the concrete cross-origin
`http://a → https://b` redirect: `Authorization` is preserved because the
scheme upgrades and the effective port moves 80 → 443 (the host change is
not consulted). -/
theorem hip_C2_witness :
    Except.map (fun r => r.headers.contains "authorization")
        (Hip.prepare_redirect c2Request c2Response c2NewUrl) =
      .ok (c2Request.headers.contains "authorization" &&
        (decide ((⟨"http", "a", 80⟩ : Hip.Origin) = ⟨"https", "b", 443⟩) ||
          decide (("http" = "http" ∧ "https" = "https" ∧
            ((443 : Nat) = 80 ∨ ((443 : Nat) = 443 ∧ (80 : Nat) = 80)))))) :=
  hip_C2_redirect_auth c2Request c2Response c2NewUrl ⟨"http", "a", 80⟩
    ⟨"https", "b", 443⟩ rfl rfl

/-- Initial URL of the claim C3 scenarios. -/
def c3UrlI : Hip.URL := ⟨some "http", some "i", none⟩

/-- First redirect target of the claim C3 scenarios. -/
def c3UrlA : Hip.URL := ⟨some "http", some "a", none⟩

/-- Second redirect target of the claim C3 scenarios. -/
def c3UrlB : Hip.URL := ⟨some "http", some "b", none⟩

/-- A `302 Found` response with the given `Location`. -/
def c3Resp (loc : String) : Hip.BaseResponse :=
  ⟨302, "HTTP/1.1", Hip.Headers.ofList [("Location", some loc)]⟩

/-- The initial request of the claim C3 scenarios. -/
def c3Request : Hip.Request := ⟨"GET", c3UrlI, Hip.Headers.ofList []⟩

/-- Redirect chain `i → a → b → a`: the third target revisits `a`. -/
def c3CycleSteps : List (Hip.BaseResponse × Hip.URL) :=
  [(c3Resp "http://a/", c3UrlA), (c3Resp "http://b/", c3UrlB),
    (c3Resp "http://a/", c3UrlA)]

/-- Two distinct redirects, one more than a budget of 1 allows. -/
def c3TwoSteps : List (Hip.BaseResponse × Hip.URL) :=
  [(c3Resp "http://a/", c3UrlA), (c3Resp "http://b/", c3UrlB)]

/-- Claim C3 (confirmed): the visited-URL set is seeded with the initial
URL and the session raises `RedirectLoopDetected` as soon as a redirect
targets a URL already in the set — so any cycle among the targets is
caught within one extra step; and with an integer `redirects` budget that
the redirect chain exceeds, the session raises `TooManyRedirects` when a
further redirect arrives at budget zero. -/
theorem hip_C3_redirect_loop :
    (∀ (request : Hip.Request) (steps : List (Hip.BaseResponse × Hip.URL)),
      (request.url.origin).isOk = true →
      Hip.allRedirects steps → Hip.allOriginsOk steps →
      Hip.hasRepeat [request.url] (steps.map Prod.snd) →
      Hip.sessionRequest .noneV request steps = .redirectLoopDetected) ∧
    (∀ (n : Int) (request : Hip.Request)
        (steps : List (Hip.BaseResponse × Hip.URL)),
      0 ≤ n → n < (steps.length : Int) →
      (request.url.origin).isOk = true →
      Hip.allRedirects steps → Hip.allOriginsOk steps →
      (∀ p ∈ steps, p.2 ≠ request.url) →
      (steps.map Prod.snd).Nodup →
      Hip.sessionRequest (.intV n) request steps = .tooManyRedirects) := by
  constructor
  · intro request steps hro hred hok hrep
    exact Hip.sessionLoop_detects steps request [request.url] hro hred hok hrep
  · intro n request steps hn hlen hro hred hok hfresh hnodup
    refine Hip.sessionLoop_tooMany steps n request [request.url] hn hlen hro
      hred hok ?_ hnodup
    intro p hp hmem
    exact hfresh p hp (List.mem_singleton.mp hmem)

/-- Witness for claim C3: the chain `i → a → b → a` is detected as a
redirect loop, and two redirects against a budget of 1 raise
`TooManyRedirects`. -/
theorem hip_C3_witness :
    Hip.sessionRequest .noneV c3Request c3CycleSteps =
      .redirectLoopDetected ∧
    Hip.sessionRequest (.intV 1) c3Request c3TwoSteps =
      .tooManyRedirects := by
  constructor
  · exact hip_C3_redirect_loop.1 c3Request c3CycleSteps (by decide) (by decide)
      (by decide) ⟨2, by decide, Or.inr (by decide)⟩
  · exact hip_C3_redirect_loop.2 1 c3Request c3TwoSteps (by decide) (by decide)
      (by decide) (by decide) (by decide) (by decide) (by decide)

/-- Claim C6, counterexample: with `max_retry_after = 30` and a response
carrying `Retry-After: 100`, the code returns a delay of `100`, not the
claim's capped `max(backoff, min(30, 100)) = 30`; and with an HTTP-date
`Retry-After`, the code raises `ValueError` where the claim says the
value counts as 0. -/
theorem hip_C6_counterexample :
    Hip.Retry.delay_before_next_request ⟨some 30, 0, 0, some 0, 0⟩ 0
        (some ⟨200, "HTTP/1.1", Hip.Headers.ofList [("Retry-After", some "100")]⟩) =
      .ok 100 ∧
    Hip.delayClaimSpec ⟨some 30, 0, 0, some 0, 0⟩ 0
        ⟨200, "HTTP/1.1", Hip.Headers.ofList [("Retry-After", some "100")]⟩ = 30 ∧
    (100 : ℚ) ≠ 30 ∧
    Hip.Retry.delay_before_next_request ⟨some 30, 0, 0, some 0, 0⟩ 0
        (some ⟨200, "HTTP/1.1",
          Hip.Headers.ofList [("Retry-After", some "Fri, 31 Dec 1999 23:59:59 GMT")]⟩) =
      .error () ∧
    Hip.delayClaimSpec ⟨some 30, 0, 0, some 0, 0⟩ 0
        ⟨200, "HTTP/1.1",
          Hip.Headers.ofList [("Retry-After", some "Fri, 31 Dec 1999 23:59:59 GMT")]⟩ =
      0 := by
  refine ⟨rfl, ?_, by decide, rfl, ?_⟩
  · have h1 : (Hip.Headers.ofList [("Retry-After", some "100")]).get_one
        "Retry-After" (some "0") = some "100" := rfl
    have h2 : Hip.parseDecimal "100" = some ((100 : ℕ) : ℚ) := rfl
    simp only [Hip.delayClaimSpec, h1, h2, Option.getD]
    norm_num
  · have h1 : (Hip.Headers.ofList
        [("Retry-After", some "Fri, 31 Dec 1999 23:59:59 GMT")]).get_one
        "Retry-After" (some "0") = some "Fri, 31 Dec 1999 23:59:59 GMT" := rfl
    have h2 : Hip.parseDecimal "Fri, 31 Dec 1999 23:59:59 GMT" = none := rfl
    simp only [Hip.delayClaimSpec, h1, h2, Option.getD]
    norm_num

/-- Claim C6 (amended): `delay_before_next_request(response)` equals
`max(backoff_delay, retry_after_delay)` where
`backoff_delay = min(max_backoff, backoff_factor * 2^(counter-1) * jitter)`
(0 whenever `max_backoff ≤ 0`, uncapped when `max_backoff` is `None`) and
`retry_after_delay` is the `Retry-After` header value parsed as a decimal
number — a missing, `None` or empty value counts as 0, the value is *not*
capped at `max_retry_after`, HTTP-dates are *not* accepted, and any other
unparseable value raises `ValueError`. -/
theorem hip_C6_delay (r : Hip.Retry) (rand : ℚ) (resp : Option Hip.BaseResponse) :
    r.delay_before_next_request rand resp = Hip.delayAmendedSpec r rand resp := by
  cases resp with
  | none =>
      simp only [Hip.Retry.delay_before_next_request, Hip.delayAmendedSpec,
        Hip.Retry.delay_backoff, Hip.Retry.jitterFactor]
  | some resp =>
      simp only [Hip.Retry.delay_before_next_request, Hip.delayAmendedSpec,
        Hip.Retry.delay_retry_after]
      cases hg : resp.headers.get_one "Retry-After" (some "0") with
      | none => rfl
      | some s =>
          by_cases hs : s = ""
          · subst hs
            rfl
          · simp only [if_neg hs]
            cases hp : Hip.parseDecimal s with
            | none => rfl
            | some q => rfl

